import Mathlib

/-!
Verification model of the process-supervised streaming telemetry link of the
monitoring-rotory-valve repository (gui/qt_interface).  The embedding covers:

* the wire codec of `CommunicationClient::onReadyRead` (line decoding of the
  newline-delimited JSON telemetry protocol, via a model of Qt's strict JSON
  parser `QJsonDocument::fromJson` and of `QJsonObject` key lookup),
* the gain-command encoder of `CommunicationClient::sendGains` (a model of
  `QJsonObject` insertion, which keeps keys in sorted order, and of compact
  serialization by `QJsonDocument::toJson(QJsonDocument::Compact)`),
* the client lifecycle of `CommunicationClient::start`, `stop`,
  `sendGains` and `onProcessError` as a state machine over an explicit
  client state, and
* the sliding time-window buffers maintained by `MainWindow::onDataUpdated`.

Floating-point telemetry values are modelled as rationals; every concrete
value exercised by the claims is an exact binary/decimal fraction, so no
rounding behaviour of IEEE doubles is load-bearing for any statement below.
-/

namespace MRV

/-- Characters that are awkward to write literally are named once here:
the double quote. -/
def dquote : Char := Char.ofNat 34

/-- Backslash character. -/
def bslash : Char := Char.ofNat 92

/-- Opening curly brace character. -/
def lbrace : Char := Char.ofNat 123

/-- Closing curly brace character. -/
def rbrace : Char := Char.ofNat 125

/-- Opening square bracket character. -/
def lbrack : Char := Char.ofNat 91

/-- Closing square bracket character. -/
def rbrack : Char := Char.ofNat 93

/-- Newline character. -/
def nlChar : Char := Char.ofNat 10

/-- JSON insignificant whitespace (RFC 8259): space, tab, newline, carriage
return.  Qt's JSON parser skips exactly these between tokens. -/
def isJsonWs (c : Char) : Bool :=
  c = ' ' || c = Char.ofNat 9 || c = Char.ofNat 10 || c = Char.ofNat 13

/-- ASCII whitespace removed by `QByteArray::trimmed` (space, tab, newline,
vertical tab, form feed, carriage return). -/
def isAsciiWs (c : Char) : Bool :=
  c = ' ' || c = Char.ofNat 9 || c = Char.ofNat 10 || c = Char.ofNat 11 ||
  c = Char.ofNat 12 || c = Char.ofNat 13

/-- Model of `QByteArray::trimmed`: remove ASCII whitespace from both ends. -/
def trimC (cs : List Char) : List Char :=
  ((cs.dropWhile isAsciiWs).reverse.dropWhile isAsciiWs).reverse

/-- Skip JSON whitespace. -/
def skipWs (cs : List Char) : List Char := cs.dropWhile isJsonWs

/-- JSON values, as produced by Qt's JSON parser (`QJsonValue`).  Numbers are
modelled as rationals (see the file header). -/
inductive JVal where
  | num (q : ℚ)
  | str (s : String)
  | bool (b : Bool)
  | null
  | arr (vs : List JVal)
  | obj (fields : List (String × JVal))

/-- Numeric value of one decimal digit character. -/
def digitVal (c : Char) : ℕ := c.toNat - 48

/-- Value of a list of decimal digit characters, most significant first. -/
def digitsVal (ds : List Char) : ℕ :=
  ds.foldl (fun n c => 10 * n + digitVal c) 0

/-- Test for a hexadecimal digit character. -/
def isHexDig (c : Char) : Bool :=
  (c.toNat ≥ 48 && c.toNat ≤ 57) || (c.toNat ≥ 97 && c.toNat ≤ 102) ||
  (c.toNat ≥ 65 && c.toNat ≤ 70)

/-- Hexadecimal digit value (for the `u` string escape). -/
def hexVal (c : Char) : ℕ :=
  if c.toNat ≥ 48 && c.toNat ≤ 57 then c.toNat - 48
  else if c.toNat ≥ 97 && c.toNat ≤ 102 then c.toNat - 87
  else if c.toNat ≥ 65 && c.toNat ≤ 70 then c.toNat - 55
  else 0

/-- Decode one escape character of a JSON string (the character after the
backslash, for the single-character escapes). -/
def escChar (c : Char) : Option Char :=
  if c = dquote then some dquote
  else if c = bslash then some bslash
  else if c = '/' then some '/'
  else if c = 'b' then some (Char.ofNat 8)
  else if c = 'f' then some (Char.ofNat 12)
  else if c = 'n' then some (Char.ofNat 10)
  else if c = 'r' then some (Char.ofNat 13)
  else if c = 't' then some (Char.ofNat 9)
  else none

/-- Body of a JSON string, after the opening quote: returns the decoded
string and the characters after the closing quote.  Raw control characters
are rejected, as in Qt's strict parser. -/
def parseJStringAux (acc : List Char) : List Char → Option (String × List Char)
  | [] => none
  | c :: cs =>
    if c = dquote then some (String.mk acc.reverse, cs)
    else if c = bslash then
      match cs with
      | [] => none
      | e :: cs' =>
        if e = 'u' then
          match cs' with
          | h1 :: h2 :: h3 :: h4 :: cs'' =>
            if (isHexDig h1 && isHexDig h2 && isHexDig h3 && isHexDig h4) then
              parseJStringAux
                (Char.ofNat (((hexVal h1 * 16 + hexVal h2) * 16 + hexVal h3) * 16 + hexVal h4) :: acc) cs''
            else none
          | _ => none
        else
          match escChar e with
          | some d => parseJStringAux (d :: acc) cs'
          | none => none
    else if c.toNat < 32 then none
    else parseJStringAux (c :: acc) cs

/-- Parse a JSON string whose opening quote has already been consumed. -/
def parseJString (cs : List Char) : Option (String × List Char) :=
  parseJStringAux [] cs

/-- Parse a (nonempty) run of decimal digits. -/
def takeDigits (cs : List Char) : List Char × List Char :=
  (cs.takeWhile Char.isDigit, cs.dropWhile Char.isDigit)

/-- Parse a JSON number: optional minus sign, integer digits, optional
fraction, optional exponent.  The numeric value is exact (a rational). -/
def parseNumber (cs : List Char) : Option (ℚ × List Char) :=
  let (neg, cs₁) :=
    match cs with
    | c :: rest => if c = '-' then (true, rest) else (false, cs)
    | [] => (false, cs)
  let (ds, cs₂) := takeDigits cs₁
  if ds.isEmpty then none
  else
    let (fds, cs₃) :=
      match cs₂ with
      | c :: rest =>
        if c = '.' then
          let (fs, cs') := takeDigits rest
          (some fs, cs')
        else (none, cs₂)
      | [] => (none, cs₂)
    match fds with
    | some fs =>
      if fs.isEmpty then none
      else parseNumTail neg ds fs cs₃
    | none => parseNumTail neg ds [] cs₃
where
  /-- Finish a number: apply the optional exponent and the sign. -/
  parseNumTail (neg : Bool) (ds fs : List Char) (cs : List Char) :
      Option (ℚ × List Char) :=
    let base : ℚ := (digitsVal ds : ℚ) + (digitsVal fs : ℚ) / (10 ^ fs.length : ℕ)
    let (eres : Option (ℚ × List Char)) :=
      match cs with
      | c :: rest =>
        if c = 'e' || c = 'E' then
          let (eneg, rest₁) :=
            match rest with
            | d :: r₂ =>
              if d = '-' then (true, r₂)
              else if d = '+' then (false, r₂)
              else (false, rest)
            | [] => (false, rest)
          let (eds, rest₂) := takeDigits rest₁
          if eds.isEmpty then none
          else
            if eneg then some (base / (10 ^ digitsVal eds : ℕ), rest₂)
            else some (base * (10 ^ digitsVal eds : ℕ), rest₂)
        else some (base, cs)
      | [] => some (base, cs)
    match eres with
    | some (q, rest) => some ((if neg then -q else q), rest)
    | none => none

/-- Replace the value under `k` if the key is present, else append the new
pair: the duplicate-key behaviour of `QJsonObject::insert`, which is how the
parser accumulates object members. -/
def objUpsert (fs : List (String × JVal)) (k : String) (v : JVal) :
    List (String × JVal) :=
  if fs.any (fun p => p.1 == k) then
    fs.map (fun p => if p.1 == k then (k, v) else p)
  else fs ++ [(k, v)]

/-- Parsing modes of the recursive-descent JSON parser.  A single fuelled
recursion (structural in the fuel) replaces the mutual recursion between
value, object-body and array-body parsing, so that every concrete parse
reduces inside the kernel. -/
inductive PMode where
  | value
  | objFirst (acc : List (String × JVal))
  | objKey (acc : List (String × JVal))
  | objNext (acc : List (String × JVal))
  | arrFirst (acc : List JVal)
  | arrNext (acc : List JVal)

/-- Recursive-descent JSON parser (model of Qt's strict JSON parser).
Returns the parsed value and the unconsumed characters. -/
def parseP : ℕ → PMode → List Char → Option (JVal × List Char)
  | 0, _, _ => none
  | f + 1, .value, cs =>
    match skipWs cs with
    | [] => none
    | c :: rest =>
      if c = dquote then
        match parseJString rest with
        | some (s, rest') => some (.str s, rest')
        | none => none
      else if c = lbrace then parseP f (.objFirst []) rest
      else if c = lbrack then parseP f (.arrFirst []) rest
      else if c = 't' then
        match rest with
        | 'r' :: 'u' :: 'e' :: rest' => some (.bool true, rest')
        | _ => none
      else if c = 'f' then
        match rest with
        | 'a' :: 'l' :: 's' :: 'e' :: rest' => some (.bool false, rest')
        | _ => none
      else if c = 'n' then
        match rest with
        | 'u' :: 'l' :: 'l' :: rest' => some (.null, rest')
        | _ => none
      else
        match parseNumber (c :: rest) with
        | some (q, rest') => some (.num q, rest')
        | none => none
  | f + 1, .objFirst acc, cs =>
    match skipWs cs with
    | [] => none
    | c :: rest =>
      if c = rbrace then some (.obj acc, rest)
      else parseP f (.objKey acc) (c :: rest)
  | f + 1, .objKey acc, cs =>
    match skipWs cs with
    | [] => none
    | c :: rest =>
      if c = dquote then
        match parseJString rest with
        | some (k, rest') =>
          match skipWs rest' with
          | ':' :: rest'' =>
            match parseP f .value rest'' with
            | some (v, rest₃) => parseP f (.objNext (objUpsert acc k v)) rest₃
            | none => none
          | _ => none
        | none => none
      else none
  | f + 1, .objNext acc, cs =>
    match skipWs cs with
    | [] => none
    | c :: rest =>
      if c = rbrace then some (.obj acc, rest)
      else if c = ',' then parseP f (.objKey acc) rest
      else none
  | f + 1, .arrFirst acc, cs =>
    match skipWs cs with
    | [] => none
    | c :: rest =>
      if c = rbrack then some (.arr acc, rest)
      else
        match parseP f .value (c :: rest) with
        | some (v, rest') => parseP f (.arrNext (acc ++ [v])) rest'
        | none => none
  | f + 1, .arrNext acc, cs =>
    match skipWs cs with
    | [] => none
    | c :: rest =>
      if c = rbrack then some (.arr acc, rest)
      else if c = ',' then
        match parseP f .value rest with
        | some (v, rest') => parseP f (.arrNext (acc ++ [v])) rest'
        | none => none
      else none

/-- Model of `QJsonDocument::fromJson` restricted to the uses in this
repository: parse the whole byte sequence as one JSON value; trailing
whitespace is allowed, trailing garbage is a syntax error.  The repository
only ever inspects whether the result is an object, so the treatment of
top-level non-container values does not affect any claim. -/
def qjsonFromJson (cs : List Char) : Option JVal :=
  match parseP (cs.length + 8) .value cs with
  | some (v, rest) => if (skipWs rest).isEmpty then some v else none
  | none => none

/-- Decoded telemetry sample (`TelemetryRecord`): the five numeric fields of
one telemetry line, in the order extracted by `onReadyRead`. -/
structure TelemetryRecord where
  pressure : ℚ
  valve_angle : ℚ
  motor_current : ℚ
  setpoint : ℚ
  timestamp : ℚ
deriving DecidableEq

/-- Decode faults of one telemetry line (spec taxonomy §7). -/
inductive DecodeError where
  | MalformedSyntax
  | MissingField
deriving DecidableEq

/-- The five keys required of a telemetry object, in the order they are
tested by `onReadyRead`. -/
def requiredKeys : List String :=
  ["pressure", "valve_angle", "motor_current", "setpoint", "timestamp"]

/-- Model of `QJsonObject::contains`. -/
def objContains (fs : List (String × JVal)) (k : String) : Bool :=
  fs.any (fun p => p.1 == k)

/-- Model of `QJsonObject::operator[]`: the value under the key, or a
non-numeric placeholder when absent (Qt returns Undefined; it is only
subjected to `toDouble`, where both behave as the 0 default). -/
def objValue (fs : List (String × JVal)) (k : String) : JVal :=
  match fs.find? (fun p => p.1 == k) with
  | some p => p.2
  | none => .null

/-- Model of `QJsonValue::toDouble()`: the numeric value for numbers, the
default 0.0 for every other kind of value. -/
def jToDouble : JVal → ℚ
  | .num q => q
  | _ => 0

/-- Test whether a JSON value is a number. -/
def jIsNum : JVal → Bool
  | .num _ => true
  | _ => false

instance {ε α : Type} [DecidableEq ε] [DecidableEq α] :
    DecidableEq (Except ε α) := fun x y =>
  match x, y with
  | .ok a, .ok b =>
    if h : a = b then .isTrue (by rw [h]) else .isFalse (by intro hh; cases hh; exact h rfl)
  | .error a, .error b =>
    if h : a = b then .isTrue (by rw [h]) else .isFalse (by intro hh; cases hh; exact h rfl)
  | .ok _, .error _ => .isFalse (by intro hh; cases hh)
  | .error _, .ok _ => .isFalse (by intro hh; cases hh)

/-- The fields of `qjsonFromJson` when the line parses as a JSON object,
and `none` otherwise (covers both the not-JSON and the not-an-object case,
which `onReadyRead` treats identically). -/
def parsedFields (line : List Char) : Option (List (String × JVal)) :=
  match qjsonFromJson line with
  | some (.obj fs) => some fs
  | _ => none

/-- Record built from a parsed telemetry object, in the order the fields are
extracted by `onReadyRead` (each via `toDouble`). -/
def recordOf (fs : List (String × JVal)) : TelemetryRecord :=
  { pressure := jToDouble (objValue fs "pressure")
  , valve_angle := jToDouble (objValue fs "valve_angle")
  , motor_current := jToDouble (objValue fs "motor_current")
  , setpoint := jToDouble (objValue fs "setpoint")
  , timestamp := jToDouble (objValue fs "timestamp") }

/-- Wire-codec decode of one (already trimmed, nonempty) line, following the
body of the `onReadyRead` loop: parse as JSON; a parse failure or a
non-object document is a syntax fault; a missing required key is a
missing-field fault; otherwise the record is built from the five values. -/
def decodeLine (line : List Char) : Except DecodeError TelemetryRecord :=
  match qjsonFromJson line with
  | some (.obj fs) =>
    if requiredKeys.all (fun k => objContains fs k) then .ok (recordOf fs)
    else .error .MissingField
  | _ => .error .MalformedSyntax

/-- Events delivered to the consumer by `CommunicationClient` (the Qt
signals `dataUpdated` and `connectionError`). -/
inductive OutEvent where
  | data (r : TelemetryRecord)
  | connErr (msg : String)
deriving DecidableEq

/-- Handling of one complete line inside the `onReadyRead` loop: trim it;
skip it when empty; decode it; a decode fault only logs a diagnostic and
yields nothing, a success yields the record. -/
def processLineC (line : List Char) : Option TelemetryRecord :=
  let t := trimC line
  if t.isEmpty then none
  else
    match decodeLine t with
    | .ok r => some r
    | .error _ => none

/-- Records emitted for a list of complete lines, in order (one pass of the
`onReadyRead` drain loop). -/
def processLinesC (lines : List (List Char)) : List TelemetryRecord :=
  lines.filterMap processLineC

/-- Consumer-visible events produced for one complete line: a decoded
record is emitted as a `dataUpdated` signal; a decode fault emits nothing
(only a `qWarning` diagnostic, which is not a consumer event). -/
def lineEvents (line : List Char) : List OutEvent :=
  match processLineC line with
  | some r => [.data r]
  | none => []

/-- Consumer-visible events of one `onReadyRead` pass over a list of
complete lines. -/
def readEvents (lines : List (List Char)) : List OutEvent :=
  (lines.map lineEvents).flatten

/-- Split a byte stream into the complete (newline-terminated) lines and
the trailing partial line, processing the characters left to right with the
current partial line accumulated in reverse (model of the
`canReadLine`/`readLine` loop: only newline-terminated data is returned as
lines; the rest stays in the device buffer). -/
def splitNlAux (acc : List Char) : List Char → List (List Char) × List Char
  | [] => ([], acc.reverse)
  | c :: cs =>
    if c = nlChar then
      let r := splitNlAux [] cs
      (acc.reverse :: r.1, r.2)
    else splitNlAux (c :: acc) cs

/-- Complete lines and trailing partial line of a byte stream. -/
def splitNl (cs : List Char) : List (List Char) × List Char :=
  splitNlAux [] cs

/-- One read-driven run of the telemetry stream reader: `buf` is the
partial line carried in the device buffer, each chunk arrival triggers an
`onReadyRead` pass that drains the complete lines now available and emits
their records in order.  Returns all emitted records and the final partial
line. -/
def runReads (buf : List Char) : List (List Char) → List TelemetryRecord × List Char
  | [] => ([], buf)
  | ch :: rest =>
    let p := splitNl (buf ++ ch)
    let q := runReads p.2 rest
    (processLinesC p.1 ++ q.1, q.2)

/-- One point of a chart series (`QPointF` in a `QLineSeries`): `x` is the
record timestamp, `y` the plotted field.  The three series maintained by
`MainWindow::onDataUpdated` (pressure, valve angle, motor current) are
identical instances of this buffer keyed to the same timestamp axis. -/
structure Pt where
  x : ℚ
  y : ℚ
deriving DecidableEq

/-- One insertion into a sliding-window series, following
`MainWindow::onDataUpdated`: append the new point at the tail, then evict
from the head while the head's timestamp is strictly below
`timestamp - window`. -/
def insertPt (w : ℚ) (buf : List Pt) (p : Pt) : List Pt :=
  (buf ++ [p]).dropWhile (fun r => r.x < p.x - w)

/-- Buffer contents after inserting a whole history of points in order,
starting from the empty series. -/
def bufferAfter (w : ℚ) (hist : List Pt) : List Pt :=
  hist.foldl (insertPt w) []

/-- The window length configured in `MainWindow` (`m_timeWindow`),
15.0 seconds. -/
def defaultTimeWindow : ℚ := 15

/-- Process-level error kinds of `QProcess::ProcessError`, as classified by
`CommunicationClient::onProcessError`. -/
inductive QProcessError where
  | failedToStart
  | crashed
  | timedout
  | writeError
  | readError
  | unknown
deriving DecidableEq

/-- Error text chosen by the `switch` in `CommunicationClient::onProcessError`. -/
def processErrorMsg : QProcessError → String
  | .failedToStart =>
    "Python not found. Please install Python 3.9+ and ensure it is in your system PATH."
  | .crashed => "Python process crashed"
  | .timedout => "Python process timed out"
  | .writeError => "Write error to Python process"
  | .readError => "Read error from Python process"
  | .unknown => "Unknown process error"

/-- States of the supervised `QProcess`. -/
inductive ProcState where
  | notRunning
  | starting
  | running
deriving DecidableEq

/-- Observable state of the `CommunicationClient` and its supervised
process: the process state, the byte sequences written to the worker's
stdin (one entry per `write` call), and the events already delivered to the
consumer.  All signal delivery is same-thread and direct-connected, so an
event is delivered in the same call stack that raises it; states are
quiescent (worker output that has arrived has been processed — the reader
pipeline itself is modelled by `runReads`). -/
structure ClientState where
  proc : ProcState
  stdinData : List String
  emitted : List OutEvent
deriving DecidableEq

/-- Timeout of `waitForFinished` after killing a half-started candidate in
`CommunicationClient::start` (milliseconds). -/
def killWaitMs : ℕ := 500

/-- Timeout of `waitForFinished` in `CommunicationClient::stop`
(milliseconds). -/
def stopWaitMs : ℕ := 3000

/-- The fixed candidate list tried by `CommunicationClient::start`. -/
def pythonCandidates : List String := ["python", "python3"]

/-- Record of one launch attempt of the candidate loop: the executable
tried, whether `waitForStarted` succeeded within its 2000 ms bound, and
whether the half-started process was killed before advancing. -/
structure Attempt where
  exec : String
  started : Bool
  killed : Bool
deriving DecidableEq

/-- The candidate loop of `CommunicationClient::start`: try each executable
in order; stop at the first that starts; kill (and wait out) every failed
attempt before advancing.  `env e` tells whether launching `e` reports
started within the bounded wait.  Returns the successful executable (if
any) and the trace of attempts. -/
def startLoop (env : String → Bool) : List String → Option String × List Attempt
  | [] => (none, [])
  | e :: rest =>
    if env e then (some e, [⟨e, true, false⟩])
    else
      let r := startLoop env rest
      (r.1, ⟨e, false, true⟩ :: r.2)

/-- Failure message assembled by `CommunicationClient::start` when no
candidate started; `e` is `errorString()` of the process after the last
attempt. -/
def startFailMsg (e : String) : String :=
  "Failed to start Python simulation.\nPlease ensure Python 3.9+ is installed and in your system PATH.\nError: " ++ e

/-- Model of `CommunicationClient::start` over an arbitrary candidate list
(`start` itself uses `pythonCandidates`): an already-running process makes
the call return immediately with no attempt; otherwise the candidate loop
runs, and if every candidate failed a `connectionError` carrying the last
attempt's `errorString()` (given by `errStr`) is emitted. -/
def startWith (env : String → Bool) (errStr : String → String)
    (cands : List String) (c : ClientState) : ClientState × List Attempt :=
  if c.proc = .running then (c, [])
  else
    let r := startLoop env cands
    match r.1 with
    | some _ => ({ c with proc := .running }, r.2)
    | none =>
      ({ c with emitted := c.emitted ++ [.connErr (startFailMsg (errStr (cands.getLastD "")))] }, r.2)

/-- Strip trailing zero digits of a fractional part, keeping at least one
digit. -/
def stripTrailZeros (ds : List Char) : List Char :=
  let r := ds.reverse.dropWhile (fun c => c = '0')
  if r.isEmpty then ['0'] else r.reverse

/-- Zero-pad a digit list on the left to length `k`. -/
def padZeros (k : ℕ) (ds : List Char) : List Char :=
  List.replicate (k - ds.length) '0' ++ ds

/-- Model of Qt's compact JSON serialization of a double
(`QJsonDocument::toJson`): integral values print with no decimal point or
exponent; other values print as their (terminating) decimal expansion with
trailing zeros removed.  Every double is a dyadic rational, so within the
denominators this model enumerates the expansion is exact; the claims only
exercise integral values. -/
def qtJsonNumber (q : ℚ) : String :=
  if q.den = 1 then toString q.num
  else
    match (List.range 64).find? (fun k => (10 ^ (k + 1)) % q.den = 0) with
    | some k =>
      let k := k + 1
      let sgn := if q.num < 0 then "-" else ""
      let scaled : ℕ := q.num.natAbs * (10 ^ k / q.den)
      let ip := scaled / 10 ^ k
      let fp := scaled % 10 ^ k
      sgn ++ toString ip ++ "." ++
        String.mk (stripTrailZeros (padZeros k (toString fp).data))
    | none => toString q.num ++ "/" ++ toString q.den

/-- Insertion into a `QJsonObject` with numeric values: Qt stores the
entries sorted by key (iteration over a `QJsonObject` is in key order), and
inserting an existing key replaces its value. -/
def qjsonInsertNum (k : String) (v : ℚ) :
    List (String × ℚ) → List (String × ℚ)
  | [] => [(k, v)]
  | (k', v') :: rest =>
    if k < k' then (k, v) :: (k', v') :: rest
    else if k = k' then (k, v) :: rest
    else (k', v') :: qjsonInsertNum k v rest

/-- Compact serialization (`QJsonDocument::toJson(QJsonDocument::Compact)`)
of an all-numeric object, in stored (sorted) key order. -/
def compactNumObj (fs : List (String × ℚ)) : String :=
  "\x7b" ++
    String.intercalate ","
      (fs.map (fun p => String.mk [dquote] ++ p.1 ++ String.mk [dquote] ++ ":" ++ qtJsonNumber p.2)) ++
  "\x7d"

/-- Byte sequence produced by `CommunicationClient::sendGains` for one gain
command: build a `QJsonObject` by inserting `Kp`, `Ki`, `Kd` in that order,
serialize it compactly, and append one newline. -/
def encodeGains (kp ki kd : ℚ) : String :=
  compactNumObj (qjsonInsertNum "Kd" kd (qjsonInsertNum "Ki" ki (qjsonInsertNum "Kp" kp []))) ++ "\n"

/-- Result of a `sendGains` call: the guard branch taken. -/
inductive SendResult where
  | notRunning
  | sent
deriving DecidableEq

/-- Model of `CommunicationClient::sendGains`: when the process is not
running the call is rejected (a warning is logged; nothing is written and
nothing else changes); otherwise the encoded bytes are written to the
worker's stdin as one write. -/
def sendGains (c : ClientState) (kp ki kd : ℚ) : ClientState × SendResult :=
  if c.proc = .running then
    ({ c with stdinData := c.stdinData ++ [encodeGains kp ki kd] }, .sent)
  else (c, .notRunning)

/-- The `start` entry point with the fixed candidate list of the source. -/
def start (env : String → Bool) (errStr : String → String) (c : ClientState) :
    ClientState × List Attempt :=
  startWith env errStr pythonCandidates c

/-- Model of `CommunicationClient::stop`: when the process is running, kill
it and wait (bounded, 3000 ms) for it to finish.  `waitForFinished`
processes the process's death before returning: Qt emits
`errorOccurred(Crashed)` for the killed process (the repository's
integration test records this crashed error as the expected behaviour of
`stop`), and the direct-connected `onProcessError` slot runs inside the
wait, emitting `connectionError` with the classified message — so the error
event reaches the consumer before `stop` returns.  In any other state the
call is a no-op. -/
def stop (c : ClientState) : ClientState :=
  if c.proc = .running then
    { c with proc := .notRunning,
             emitted := c.emitted ++ [.connErr (processErrorMsg .crashed)] }
  else c

/-- Spontaneous (non-call) deliveries to the consumer: a running worker may
produce a telemetry line (a `readyReadStandardOutput` whose decode emits
`dataUpdated`) or a process-level fault (an `errorOccurred` whose
classification emits `connectionError`).  Both signals originate in the
supervised `QProcess`; a handle whose process is not running has no source
of spontaneous deliveries. -/
inductive AsyncStep : ClientState → ClientState → Prop
  | telemetry (c : ClientState) (r : TelemetryRecord) (h : c.proc = .running) :
      AsyncStep c { c with emitted := c.emitted ++ [.data r] }
  | procError (c : ClientState) (e : QProcessError) (h : c.proc = .running) :
      AsyncStep c { c with emitted := c.emitted ++ [.connErr (processErrorMsg e)] }

/-- C10: calling `start` while the supervised process is already running
returns immediately: no candidate is attempted, the state (process, stdin
stream, delivered events) is untouched, and no error event is emitted. -/
theorem start_already_running (env : String → Bool) (errStr : String → String)
    (c : ClientState) (h : c.proc = .running) :
    start env errStr c = (c, []) := by
  simp [start, startWith, h]

/-- Closed instance of C10. -/
theorem start_already_running_witness :
    start (fun _ => true) (fun _ => "e") ⟨.running, [], []⟩ =
      (⟨.running, [], []⟩, []) :=
  start_already_running (fun _ => true) (fun _ => "e") ⟨.running, [], []⟩ rfl

/-- C9: stop is idempotent.  Stopping twice in succession yields exactly
the same state as stopping once (in particular the second stop delivers no
further event: the process is already down, so the kill branch is not
taken); the process is not running once stop returns; and stop on a handle
that is not running is a no-op. -/
theorem stop_idempotent (c : ClientState) :
    stop (stop c) = stop c
    ∧ (stop (stop c)).emitted = (stop c).emitted
    ∧ (stop c).proc ≠ .running
    ∧ (c.proc ≠ .running → stop c = c) := by
  by_cases h : c.proc = .running
  · refine ⟨?_, ?_, ?_, fun hn => absurd h hn⟩ <;> simp [stop, h]
  · refine ⟨?_, ?_, ?_, fun _ => ?_⟩ <;> simp [stop, h]

/-- Closed instance of C9 at a stopped handle: a second stop is a no-op. -/
theorem stop_idempotent_witness :
    stop ⟨.notRunning, [], []⟩ = ⟨.notRunning, [], []⟩ :=
  (stop_idempotent ⟨.notRunning, [], []⟩).2.2.2 (by decide)

/-- C6: command rejection.  `sendGains` on a handle whose process is not
running takes the rejection branch: the result records the `NotRunning`
rejection and the state is returned unchanged, so zero bytes are written to
any stream and no other observable effect occurs. -/
theorem sendGains_rejected (c : ClientState) (kp ki kd : ℚ)
    (h : c.proc ≠ .running) :
    sendGains c kp ki kd = (c, .notRunning) := by
  simp [sendGains, h]

/-- Closed instance of C6. -/
theorem sendGains_rejected_witness :
    sendGains ⟨.notRunning, [], []⟩ 150 50 60 =
      (⟨.notRunning, [], []⟩, .notRunning) :=
  sendGains_rejected ⟨.notRunning, [], []⟩ 150 50 60 (by decide)

/-- Compact serialization of the gain object for 150/50/60, evaluated. -/
theorem encodeGains_eval :
    encodeGains 150 50 60 = "\x7b\"Kd\":60,\"Ki\":50,\"Kp\":150\x7d\n" := by
  with_unfolding_all rfl

/-- Counterexample to C4 as stated: the bytes written for
`GainCommand{Kp:150, Ki:50, Kd:60}` are not
`{"Kp":150,"Ki":50,"Kd":60}\n` — the `QJsonObject` stores its keys in
sorted order, so the serialized field order is `Kd`, `Ki`, `Kp`. -/
theorem sendGains_field_order_counterexample :
    sendGains ⟨.running, [], []⟩ 150 50 60 ≠
      (⟨.running, ["\x7b\"Kp\":150,\"Ki\":50,\"Kd\":60\x7d\n"], []⟩, .sent)
    ∧ encodeGains 150 50 60 ≠ "\x7b\"Kp\":150,\"Ki\":50,\"Kd\":60\x7d\n" := by
  with_unfolding_all decide

/-- C4 (amended): sending the gain command on a running handle writes to
the process input stream exactly one compact JSON object terminated by a
single newline, with the fields in the sorted key order produced by
`QJsonObject` and integral numeric formatting:
`{"Kd":60,"Ki":50,"Kp":150}\n`. -/
theorem sendGains_encoding (c : ClientState) (h : c.proc = .running) :
    sendGains c 150 50 60 =
      ({ c with stdinData :=
          c.stdinData ++ ["\x7b\"Kd\":60,\"Ki\":50,\"Kp\":150\x7d\n"] }, .sent) := by
  simp [sendGains, h, encodeGains_eval]

/-- Closed instance of C4 (amended). -/
theorem sendGains_encoding_witness :
    sendGains ⟨.running, [], []⟩ 150 50 60 =
      (⟨.running, ["\x7b\"Kd\":60,\"Ki\":50,\"Kp\":150\x7d\n"], []⟩, .sent) := by
  have h := sendGains_encoding ⟨.running, [], []⟩ rfl
  simpa using h

/-- C5: silence after stop.  Called from any state, once `stop` returns the
underlying process is no longer running, so no spontaneous delivery (no
telemetry record, no error event) can ever reach the consumer afterwards:
the `Crashed` error raised by the kill is delivered inside the bounded
`waitForFinished` — before `stop` returns — and a dead process emits no
further signals.  When the process was running, the events delivered by the
time `stop` returns are exactly the prior ones plus that one crashed
`connectionError`. -/
theorem stop_silence (c : ClientState) :
    (stop c).proc ≠ .running
    ∧ (∀ c', ¬ AsyncStep (stop c) c')
    ∧ (c.proc = .running →
        (stop c).emitted = c.emitted ++ [.connErr (processErrorMsg .crashed)]) := by
  have hproc : (stop c).proc ≠ .running := by
    by_cases h : c.proc = .running <;> simp [stop, h]
  refine ⟨hproc, fun c' hstep => ?_, fun h => by simp [stop, h]⟩
  cases hstep with
  | telemetry r h => exact hproc h
  | procError e h => exact hproc h

/-- Closed instance of C5 at a running handle: the crashed error is
delivered by the time `stop` returns, and the stopped handle admits no
further spontaneous delivery. -/
theorem stop_silence_witness :
    (stop ⟨.running, [], []⟩).proc ≠ .running
    ∧ (stop ⟨.running, [], []⟩).emitted =
        [] ++ [.connErr (processErrorMsg .crashed)]
    ∧ ∀ c', ¬ AsyncStep (stop ⟨.running, [], []⟩) c' :=
  ⟨(stop_silence ⟨.running, [], []⟩).1,
   (stop_silence ⟨.running, [], []⟩).2.2 rfl,
   (stop_silence ⟨.running, [], []⟩).2.1⟩

/-- Timestamp order between buffered points. -/
def ptLe (a b : Pt) : Prop := a.x ≤ b.x

instance : DecidableRel ptLe := fun a b => inferInstanceAs (Decidable (a.x ≤ b.x))

/-- On a timestamp-sorted buffer, the head-eviction loop (a `dropWhile`)
removes exactly the elements below the cutoff: it equals a filter. -/
theorem dropWhile_lt_eq_filter (cut : ℚ) (l : List Pt) (hl : l.Pairwise ptLe) :
    l.dropWhile (fun r => r.x < cut) = l.filter (fun r => cut ≤ r.x) := by
  induction l with
  | nil => rfl
  | cons a l ih =>
    rw [List.pairwise_cons] at hl
    by_cases h : a.x < cut
    · have hna : ¬ (cut ≤ a.x) := not_le.mpr h
      simp only [List.dropWhile_cons, List.filter_cons, h, hna]
      simpa using ih hl.2
    · have ha : cut ≤ a.x := not_lt.mp h
      have hall : ∀ b ∈ l, cut ≤ b.x := fun b hb => le_trans ha (hl.1 b hb)
      have hfl : l.filter (fun r => decide (cut ≤ r.x)) = l :=
        List.filter_eq_self.mpr (fun b hb => decide_eq_true (hall b hb))
      simp only [List.dropWhile_cons, List.filter_cons, h, ha]
      simp [hfl]

/-- Members of the buffer after one insertion come from the old buffer or
are the new point. -/
theorem insertPt_mem (w : ℚ) (buf : List Pt) (p q : Pt)
    (h : q ∈ insertPt w buf p) : q ∈ buf ∨ q = p := by
  have hs : q ∈ buf ++ [p] := (List.dropWhile_sublist _).subset h
  simpa using hs

/-- One insertion preserves timestamp sortedness when the new point is at
least as late as everything buffered. -/
theorem insertPt_pairwise (w : ℚ) (buf : List Pt) (p : Pt)
    (hbuf : buf.Pairwise ptLe) (hle : ∀ b ∈ buf, b.x ≤ p.x) :
    (insertPt w buf p).Pairwise ptLe := by
  have happ : (buf ++ [p]).Pairwise ptLe := by
    rw [List.pairwise_append]
    exact ⟨hbuf, List.pairwise_singleton _ _, fun a ha b hb => by
      simp only [List.mem_singleton] at hb
      subst hb
      exact hle a ha⟩
  exact happ.sublist (List.dropWhile_sublist _)

/-- Unfolding of the history fold over a final insertion. -/
theorem bufferAfter_snoc (w : ℚ) (hist : List Pt) (p : Pt) :
    bufferAfter w (hist ++ [p]) = insertPt w (bufferAfter w hist) p := by
  simp [bufferAfter, List.foldl_append]

/-- Invariant of the sliding-window buffer under a non-decreasing insertion
history: the buffer stays timestamp-sorted and only ever holds inserted
points. -/
theorem bufferAfter_inv (w : ℚ) (hist : List Pt)
    (hmono : hist.Pairwise ptLe) :
    (bufferAfter w hist).Pairwise ptLe ∧
      ∀ q ∈ bufferAfter w hist, q ∈ hist := by
  induction hist using List.reverseRecOn with
  | nil => exact ⟨List.Pairwise.nil, by simp [bufferAfter]⟩
  | append_singleton l p ih =>
    rw [List.pairwise_append] at hmono
    have hl : l.Pairwise ptLe := hmono.1
    have hlp : ∀ a ∈ l, ptLe a p := fun a ha => by
      have := hmono.2.2 a ha p (List.mem_singleton_self p)
      exact this
    obtain ⟨hpw, hmem⟩ := ih hl
    have hle : ∀ b ∈ bufferAfter w l, b.x ≤ p.x := fun b hb => hlp b (hmem b hb)
    rw [bufferAfter_snoc]
    constructor
    · exact insertPt_pairwise w _ p hpw hle
    · intro q hq
      rcases insertPt_mem w _ p q hq with h | h
      · exact List.mem_append_left _ (hmem q h)
      · subst h
        exact List.mem_append_right _ (List.mem_singleton_self q)

/-- C1: sliding window invariant.  For every nonnegative window length `w`
and every insertion history with non-decreasing timestamps, inserting a
point with timestamp `t` leaves in the buffer exactly the previously
retained points whose timestamp is at least `t - w`, followed by the new
point, in order; every retained point `r` satisfies `t - r.x ≤ w`, and (by
the filter equality) no point satisfying that bound is evicted. -/
theorem window_invariant (w : ℚ) (hw : 0 ≤ w) (hist : List Pt) (p : Pt)
    (hmono : (hist ++ [p]).Pairwise ptLe) :
    bufferAfter w (hist ++ [p]) =
      (bufferAfter w hist).filter (fun r => p.x - w ≤ r.x) ++ [p]
    ∧ ∀ r ∈ bufferAfter w (hist ++ [p]), p.x - r.x ≤ w := by
  rw [List.pairwise_append] at hmono
  have hl : hist.Pairwise ptLe := hmono.1
  have hlp : ∀ a ∈ hist, a.x ≤ p.x := fun a ha =>
    hmono.2.2 a ha p (List.mem_singleton_self p)
  obtain ⟨hpw, hmem⟩ := bufferAfter_inv w hist hl
  have hle : ∀ b ∈ bufferAfter w hist, b.x ≤ p.x := fun b hb => hlp b (hmem b hb)
  have happ : ((bufferAfter w hist) ++ [p]).Pairwise ptLe := by
    rw [List.pairwise_append]
    exact ⟨hpw, List.pairwise_singleton _ _, fun a ha b hb => by
      simp only [List.mem_singleton] at hb
      subst hb
      exact hle a ha⟩
  have hkey : bufferAfter w (hist ++ [p]) =
      ((bufferAfter w hist) ++ [p]).filter (fun r => p.x - w ≤ r.x) := by
    rw [bufferAfter_snoc]
    exact dropWhile_lt_eq_filter (p.x - w) _ happ
  have hp : (p.x - w ≤ p.x) := sub_le_self p.x hw
  have heq : bufferAfter w (hist ++ [p]) =
      (bufferAfter w hist).filter (fun r => p.x - w ≤ r.x) ++ [p] := by
    rw [hkey, List.filter_append]
    simp [hp, hw]
  refine ⟨heq, fun r hr => ?_⟩
  rw [heq] at hr
  rcases List.mem_append.mp hr with h | h
  · have := List.of_mem_filter h
    have hx : p.x - w ≤ r.x := of_decide_eq_true this
    linarith
  · simp only [List.mem_singleton] at h
    subst h
    simpa using hw

/-- Closed instance of C1, the concrete scenario of the spec: inserting at
timestamps 0, 5, 10, 16 with window 15 retains exactly the points at 5, 10
and 16 (the point at 0 is evicted since 16 - 0 > 15). -/
theorem window_invariant_witness :
    bufferAfter 15 ([⟨0, 0⟩, ⟨5, 1⟩, ⟨10, 2⟩] ++ [⟨16, 3⟩]) =
      (bufferAfter 15 [⟨0, 0⟩, ⟨5, 1⟩, ⟨10, 2⟩]).filter
        (fun r => (16 : ℚ) - 15 ≤ r.x) ++ [⟨16, 3⟩]
    ∧ bufferAfter 15 [⟨0, 0⟩, ⟨5, 1⟩, ⟨10, 2⟩, ⟨16, 3⟩] =
        [⟨5, 1⟩, ⟨10, 2⟩, ⟨16, 3⟩] := by
  constructor
  · exact (window_invariant 15 (by norm_num) [⟨0, 0⟩, ⟨5, 1⟩, ⟨10, 2⟩] ⟨16, 3⟩
      (by with_unfolding_all decide)).1
  · with_unfolding_all decide

/-- C2 (amended): decode shape validation.  A record is constructed exactly
when the line parses as a JSON object containing all five required keys
(whatever the type of their values; values are coerced by `toDouble`, with
0 for non-numbers); a line that is not valid JSON or not an object fails
with `MalformedSyntax`; a JSON object lacking a required key fails with
`MissingField`; and any constructed record is exactly the record of the
parsed fields, never a partial one. -/
theorem decode_shape (line : List Char) :
    ((∃ r, decodeLine line = .ok r) ↔
      (∃ fs, parsedFields line = some fs ∧
        requiredKeys.all (fun k => objContains fs k) = true))
    ∧ (decodeLine line = .error .MalformedSyntax ↔ parsedFields line = none)
    ∧ (∀ fs, parsedFields line = some fs →
        requiredKeys.all (fun k => objContains fs k) = false →
        decodeLine line = .error .MissingField)
    ∧ (∀ r, decodeLine line = .ok r →
        ∃ fs, parsedFields line = some fs ∧ r = recordOf fs) := by
  cases h : qjsonFromJson line with
  | none => simp [decodeLine, parsedFields, h]
  | some v =>
    cases v with
    | obj fs =>
      by_cases hall : requiredKeys.all (fun k => objContains fs k) = true
      · simp [decodeLine, parsedFields, h, hall]
        exact List.all_eq_true.mp hall
      · rw [Bool.not_eq_true] at hall
        simp [decodeLine, parsedFields, h, hall]
        simpa using List.all_eq_false.mp hall
    | num q => simp [decodeLine, parsedFields, h]
    | str s => simp [decodeLine, parsedFields, h]
    | bool b => simp [decodeLine, parsedFields, h]
    | null => simp [decodeLine, parsedFields, h]
    | arr vs => simp [decodeLine, parsedFields, h]

/-- Closed instance of C2: a line that is not valid JSON decodes to the
`MalformedSyntax` fault. -/
theorem decode_shape_witness :
    decodeLine ("\x7binvalid json\x7d").data = .error .MalformedSyntax :=
  (decode_shape ("\x7binvalid json\x7d").data).2.1.mpr (by with_unfolding_all rfl)

/-- Statement of C2 exactly as claimed: a record is constructed if and only
if the line parses as a JSON object that has all five required keys with
numeric values. -/
def numericShapeClaim : Prop :=
  ∀ line : List Char,
    (∃ r, decodeLine line = .ok r) ↔
      (∃ fs, parsedFields line = some fs ∧
        requiredKeys.all (fun k => objContains fs k && jIsNum (objValue fs k)) = true)

/-- The parsed fields of the counterexample line below: all five keys are
present but `pressure` holds a boolean, not a number. -/
def nonNumericFields : List (String × JVal) :=
  [("pressure", .bool true), ("valve_angle", .num 1), ("motor_current", .num 2),
   ("setpoint", .num 3), ("timestamp", .num 4)]

/-- A syntactically valid telemetry line whose `pressure` value is not
numeric. -/
def nonNumericLine : String :=
  "\x7b\"pressure\":true,\"valve_angle\":1,\"motor_current\":2,\"setpoint\":3,\"timestamp\":4\x7d"

/-- Counterexample to C2 as stated: the code only checks key presence, so
the line whose `pressure` is `true` still constructs a record (with the
`toDouble` default 0), although its values are not all numeric. -/
theorem decode_numeric_shape_counterexample : ¬ numericShapeClaim := by
  intro hcl
  have hok : decodeLine nonNumericLine.data = .ok ⟨0, 1, 2, 3, 4⟩ := by
    with_unfolding_all rfl
  obtain ⟨fs, hfs, hall⟩ := (hcl nonNumericLine.data).mp ⟨_, hok⟩
  have hfs0 : parsedFields nonNumericLine.data = some nonNumericFields := by
    with_unfolding_all rfl
  rw [hfs0] at hfs
  obtain rfl : nonNumericFields = fs := Option.some.inj hfs
  have hfalse : requiredKeys.all
      (fun k => objContains nonNumericFields k && jIsNum (objValue nonNumericFields k)) = false := by
    with_unfolding_all rfl
  rw [hfalse] at hall
  exact Bool.false_ne_true hall

/-- C3: malformed-input resilience.  Inserting a line that decodes to
nothing (malformed, missing fields, or blank) anywhere between valid lines
changes neither the events delivered nor the records emitted: the stream
continues, the count of valid records is not reduced, and decode faults are
never surfaced to the consumer as error events (every delivered event is a
data record). -/
theorem malformed_resilience (ls₁ ls₂ : List (List Char)) (bad : List Char)
    (h : processLineC bad = none) :
    readEvents (ls₁ ++ bad :: ls₂) = readEvents (ls₁ ++ ls₂)
    ∧ processLinesC (ls₁ ++ bad :: ls₂) = processLinesC (ls₁ ++ ls₂)
    ∧ ∀ e ∈ readEvents (ls₁ ++ bad :: ls₂), ∃ r, e = .data r := by
  have hb : lineEvents bad = [] := by simp [lineEvents, h]
  refine ⟨?_, ?_, ?_⟩
  · simp [readEvents, hb]
  · simp [processLinesC, List.filterMap_append, List.filterMap_cons, h]
  · intro e he
    simp only [readEvents, List.mem_flatten, List.mem_map] at he
    obtain ⟨a, ⟨l, _, rfl⟩, hea⟩ := he
    cases hpl : processLineC l with
    | none => simp [lineEvents, hpl] at hea
    | some r =>
      refine ⟨r, ?_⟩
      simp [lineEvents, hpl] at hea
      exact hea

/-- The first valid telemetry line of the spec's concrete scenario. -/
def goodLine1 : String :=
  "\x7b\"pressure\":100,\"valve_angle\":10,\"motor_current\":2,\"setpoint\":500,\"timestamp\":0.1\x7d"

/-- The second valid telemetry line of the spec's concrete scenario. -/
def goodLine2 : String :=
  "\x7b\"pressure\":110,\"valve_angle\":11,\"motor_current\":2.1,\"setpoint\":500,\"timestamp\":0.2\x7d"

/-- The invalid line of the spec's concrete scenario. -/
def invalidLine : String := "\x7binvalid json\x7d"

/-- Closed instance of C3, the spec's concrete scenario: the invalid line
between the two valid ones changes nothing, and exactly the two records
with timestamps 0.1 and 0.2 are emitted, in that order. -/
theorem malformed_resilience_witness :
    readEvents [goodLine1.data, invalidLine.data, goodLine2.data] =
      readEvents [goodLine1.data, goodLine2.data]
    ∧ processLinesC [goodLine1.data, invalidLine.data, goodLine2.data] =
        [⟨100, 10, 2, 500, 1/10⟩, ⟨110, 11, 21/10, 500, 1/5⟩] := by
  constructor
  · have h := (malformed_resilience [goodLine1.data] [goodLine2.data]
      invalidLine.data (by with_unfolding_all rfl)).1
    simpa using h
  · with_unfolding_all rfl

/-- Splitting a concatenation: the lines of `xs ++ ys` are the lines of
`xs` followed by the lines obtained by continuing with `ys` from the
partial line left over by `xs`. -/
theorem splitNlAux_append (ys : List Char) :
    ∀ (xs acc : List Char),
      splitNlAux acc (xs ++ ys) =
        ((splitNlAux acc xs).1 ++
            (splitNlAux ((splitNlAux acc xs).2.reverse) ys).1,
         (splitNlAux ((splitNlAux acc xs).2.reverse) ys).2) := by
  intro xs
  induction xs with
  | nil => intro acc; simp [splitNlAux]
  | cons c xs ih =>
    intro acc
    by_cases hc : c = nlChar
    · simp [splitNlAux, hc, ih]
    · simp [splitNlAux, hc, ih]

/-- A stream with no newline yields no complete line; everything stays in
the partial-line buffer. -/
theorem splitNlAux_no_nl (cs : List Char) :
    ∀ acc, nlChar ∉ cs → splitNlAux acc cs = ([], acc.reverse ++ cs) := by
  induction cs with
  | nil => intro acc _; simp [splitNlAux]
  | cons c cs ih =>
    intro acc h
    rw [List.mem_cons] at h
    push_neg at h
    have hc : ¬ (c = nlChar) := fun e => h.1 e.symm
    simp [splitNlAux, hc, ih (c :: acc) h.2]

/-- The partial line left over by the splitter never contains a newline. -/
theorem splitNlAux_rem_no_nl (cs : List Char) :
    ∀ acc, nlChar ∉ acc → nlChar ∉ (splitNlAux acc cs).2 := by
  induction cs with
  | nil =>
    intro acc h
    simpa [splitNlAux, List.mem_reverse] using h
  | cons c cs ih =>
    intro acc h
    by_cases hc : c = nlChar
    · simp only [splitNlAux, hc, if_pos rfl]
      exact ih [] (by simp)
    · simp only [splitNlAux, if_neg hc]
      refine ih (c :: acc) ?_
      intro hmem
      rcases List.mem_cons.mp hmem with e | e
      · exact hc e.symm
      · exact h e

/-- Chunk-independence of the reader: the records emitted across any
sequence of reads, starting from a newline-free partial-line buffer, are
exactly the in-order decodes of the complete lines of the whole stream seen
so far. -/
theorem runReads_flatten (chunks : List (List Char)) :
    ∀ buf, nlChar ∉ buf →
      (runReads buf chunks).1 = processLinesC (splitNl (buf ++ chunks.flatten)).1 := by
  induction chunks with
  | nil =>
    intro buf h
    simp [runReads, splitNl, splitNlAux_no_nl buf [] h, processLinesC]
  | cons ch rest ih =>
    intro buf h
    have hB2 : nlChar ∉ (splitNl (buf ++ ch)).2 :=
      splitNlAux_rem_no_nl (buf ++ ch) [] (by simp)
    have hrw := ih (splitNl (buf ++ ch)).2 hB2
    have hsplit :
        splitNl ((buf ++ ch) ++ rest.flatten) =
          ((splitNl (buf ++ ch)).1 ++
              (splitNlAux ((splitNl (buf ++ ch)).2.reverse) rest.flatten).1,
           (splitNlAux ((splitNl (buf ++ ch)).2.reverse) rest.flatten).2) :=
    splitNlAux_append rest.flatten (buf ++ ch) []
    have hcont :
        splitNl ((splitNl (buf ++ ch)).2 ++ rest.flatten) =
          ((splitNlAux ((splitNl (buf ++ ch)).2.reverse) rest.flatten).1,
           (splitNlAux ((splitNl (buf ++ ch)).2.reverse) rest.flatten).2) := by
      have h0 := splitNlAux_append rest.flatten (splitNl (buf ++ ch)).2 []
      rw [show splitNlAux [] (splitNl (buf ++ ch)).2 = ([], (splitNl (buf ++ ch)).2) from
        splitNlAux_no_nl _ [] hB2] at h0
      simpa [splitNl] using h0
    calc (runReads buf (ch :: rest)).1
        = processLinesC (splitNl (buf ++ ch)).1 ++
            (runReads (splitNl (buf ++ ch)).2 rest).1 := by simp [runReads]
      _ = processLinesC (splitNl (buf ++ ch)).1 ++
            processLinesC (splitNl ((splitNl (buf ++ ch)).2 ++ rest.flatten)).1 := by rw [hrw]
      _ = processLinesC ((splitNl (buf ++ ch)).1 ++
            (splitNlAux ((splitNl (buf ++ ch)).2.reverse) rest.flatten).1) := by
          rw [hcont]
          simp [processLinesC, List.filterMap_append]
      _ = processLinesC (splitNl (buf ++ (ch :: rest).flatten)).1 := by
          rw [show buf ++ (ch :: rest).flatten = (buf ++ ch) ++ rest.flatten by
            simp [List.flatten_cons, List.append_assoc]]
          rw [hsplit]

/-- C8: monotonic emission order.  For every division of the input stream
into read chunks, the records emitted across the reads (each read draining
all complete lines then available, emitting each decoded record before the
next line is processed) are exactly the in-order decodes of the complete
lines of the whole stream: emission order equals source-line order and is
independent of the chunking. -/
theorem emission_order (chunks : List (List Char)) :
    (runReads [] chunks).1 = processLinesC (splitNl chunks.flatten).1 := by
  have h := runReads_flatten chunks [] (by simp)
  simpa using h

end MRV
